import Mathlib

/-!
# Verification of the star-topic aggregation scripts (`gen.py`, `gen_html.py`)

A shallow embedding of the topic-aggregation core of the two Python scripts:
effective-topic resolution with the fork fallback, grouping of repositories
by topic, ranking and the 2-repository threshold, and search-query/URL
construction.  Remote calls are modelled by explicit inputs: the fork-fallback
repository fetch is a function `String → String → Option Repo`, and the
contributor listing is a response record carrying an HTTP status and the
contributor logins.
-/

namespace StarTopics

/-- A GitHub repository as the scripts see it: owner login, name, and the
declared topic list (`repo.get('topics', [])` folds a missing key into `[]`). -/
structure Repo where
  owner : String
  name : String
  topics : List String
deriving DecidableEq

/-- `repo['full_name']`, which GitHub defines as `owner/name`. -/
def fullName (r : Repo) : String := r.owner ++ "/" ++ r.name

/-- A decision procedure for the library's lexicographic order on `String`
that the kernel can evaluate on literals (the library's own instance is
defined through string iterators and does not reduce).  Python compares
strings the same way: lexicographically by code point. -/
instance (priority := 2000) strDecLE : DecidableRel ((· ≤ ·) : String → String → Prop) :=
  fun a b => decidable_of_iff (¬ List.Lex (· < ·) b.data a.data)
    (not_congr String.lt_iff_toList_lt).symm

/-! ## Prettification constants and helpers (`gen.py` lines 52-77) -/

/-- `PROGRAMMING_LANGUAGES` from the scripts (a Python set; only membership is
ever used, so a list models it). -/
def PROGRAMMING_LANGUAGES : List String :=
  ["minikanren", "racket", "common-lisp", "coq", "dafny",
   "python", "java", "javascript", "typescript", "ruby", "go", "rust", "scala",
   "haskell", "perl", "php", "c", "c++", "c#", "r", "swift", "kotlin",
   "objective-c", "shell", "bash", "lua", "dart", "elixir", "clojure", "erlang",
   "fsharp", "fortran", "scheme", "lisp", "ocaml", "prolog", "matlab", "julia"]

/-- `TOPIC_TITLES` from the scripts, as an association list (Python dict with
string keys; only `.get` is used). -/
def TOPIC_TITLES : List (String × String) :=
  [("ai", "AI"),
   ("llm", "LLMs"),
   ("minikanren", "miniKanren"),
   ("multi-stage-programming", "Staging"),
   ("ncats-translator", "NCATS"),
   ("oop", "OOP")]

/-- Python `str.split('-')` on a character list: splits at every hyphen,
keeping empty segments, with `[[]]` for the empty string. -/
def splitHyphen : List Char → List (List Char)
  | [] => [[]]
  | c :: rest =>
    match splitHyphen rest with
    | [] => [[]]
    | w :: ws => if c = '-' then [] :: w :: ws else (c :: w) :: ws

/-- Python `str.capitalize()` (ASCII fragment): first character uppercased,
every later character lowercased. -/
def pyCapWord : List Char → List Char
  | [] => []
  | c :: rest => c.toUpper :: rest.map Char.toLower

/-- `capitalize` from the scripts: split on `-`, `str.capitalize()` each word,
re-join with `-` (the `''.join(['-'.join(...)])` in the source collapses to
exactly this). -/
def capitalize (text : String) : String :=
  String.mk (List.intercalate ['-'] ((splitHyphen text.data).map pyCapWord))

/-- `pretty_title` from the scripts: `TOPIC_TITLES.get(topic, capitalize(topic))`. -/
def pretty_title (topic : String) : String :=
  (TOPIC_TITLES.lookup topic).getD (capitalize topic)

/-- Python `str.lower()` (ASCII fragment), as used in `topic.lower()`. -/
def lower (s : String) : String := String.mk (s.data.map Char.toLower)

/-- The CSS class choice of `gen.py` line 177 and `gen_html.py` line 132:
`"programming-language" if topic.lower() in PROGRAMMING_LANGUAGES else ""`. -/
def topic_class (topic : String) : String :=
  if lower topic ∈ PROGRAMMING_LANGUAGES then "programming-language" else ""

/-! ## Contribution check (`gen.py` lines 80-88, `gen_html.py` lines 71-79) -/

/-- The outcome of the contributors request, as the scripts consume it: the
HTTP status code and the contributor logins of the JSON body. -/
structure ContribResponse where
  status : Nat
  contributors : List String
deriving DecidableEq

/-- `has_contributed_to_repo`: on a 200 response, scan the contributor list
for a login equal to the configured username; on any other status fall
through to `False`. -/
def has_contributed_to_repo (username : String) (resp : ContribResponse) : Bool :=
  if resp.status = 200 then
    resp.contributors.any (fun login => login == username)
  else
    false

/-! ## Effective-topic resolution (`gen.py` lines 119-144) -/

/-- `get_effective_topics` from `gen.py`.  The remote `get_repo_for_user`
call is the `fetch` argument (`none` models both a 404 and an error status,
which the script treats alike).  The returned `Bool` reifies whether the
fork-fallback branch produced the result — exactly the condition under which
the script extends its `forked_topics` set with the returned list. -/
def get_effective_topics (fetch : String → String → Option Repo)
    (username : String) (repo : Repo) : List String × Bool :=
  let topics := repo.topics
  if topics = [] ∧ repo.owner ≠ username then
    match fetch username repo.name with
    | some user_repo =>
      let user_topics := user_repo.topics
      if user_topics = [] then (topics, false) else (user_topics, true)
    | none => (topics, false)
  else
    (topics, false)

/-! ## Aggregation (`gen.py` lines 146-152, `gen_html.py` lines 112-119) -/

/-- One `topic_to_repos[topic].append(repo)` step, on an association list
with unique keys kept in dict insertion order: update the existing entry or
append a fresh singleton entry at the end. -/
def addRepo : List (String × List Repo) → String → Repo → List (String × List Repo)
  | [], t, r => [(t, [r])]
  | (k, v) :: rest, t, r =>
    if k = t then (k, v ++ [r]) :: rest else (k, v) :: addRepo rest t r

/-- `topic_to_repos[topic]` with `[]` for an absent key. -/
def lookupIx : List (String × List Repo) → String → List Repo
  | [], _ => []
  | (k, v) :: rest, t => if k = t then v else lookupIx rest t

/-- One iteration of the Step-3 loop of `gen.py`: resolve the repository's
effective topics, append the repository under each of them, and extend the
forked-topic set with the whole list when the fallback fired. -/
def aggStep (fetch : String → String → Option Repo) (username : String)
    (acc : List (String × List Repo) × List String) (repo : Repo) :
    List (String × List Repo) × List String :=
  let et := get_effective_topics fetch username repo
  (et.1.foldl (fun ix t => addRepo ix t repo) acc.1,
   if et.2 then acc.2 ++ et.1 else acc.2)

/-- The Step-3 loop of `gen.py`: the topic index and the forked-topic set
(a Python set; a list models it, only membership is consulted). -/
def aggregate (fetch : String → String → Option Repo) (username : String)
    (repos : List Repo) : List (String × List Repo) × List String :=
  repos.foldl (aggStep fetch username) ([], [])

/-! ## Ranking (`gen.py` lines 154-166, `gen_html.py` lines 121-127) -/

/-- The markdown-mode sort key of `gen.py`: `(-len(repos), topic)` compared
lexicographically, i.e. `a` sorts no later than `b` iff `a` has strictly more
repositories, or equally many and a topic string no greater. -/
def rankLE (a b : String × List Repo) : Prop :=
  b.2.length < a.2.length ∨ (a.2.length = b.2.length ∧ a.1 ≤ b.1)

instance : DecidableRel rankLE := fun a b => by
  unfold rankLE; infer_instance

instance : IsTotal (String × List Repo) rankLE where
  total a b := by
    rcases Nat.lt_trichotomy a.2.length b.2.length with h | h | h
    · exact Or.inr (Or.inl h)
    · rcases le_total a.1 b.1 with h1 | h1
      · exact Or.inl (Or.inr ⟨h, h1⟩)
      · exact Or.inr (Or.inr ⟨h.symm, h1⟩)
    · exact Or.inl (Or.inl h)

instance : IsTrans (String × List Repo) rankLE where
  trans a b c hab hbc := by
    rcases hab with hab | ⟨hab1, hab2⟩
    · rcases hbc with hbc | ⟨hbc1, hbc2⟩
      · exact Or.inl (hbc.trans hab)
      · exact Or.inl (hbc1 ▸ hab)
    · rcases hbc with hbc | ⟨hbc1, hbc2⟩
      · exact Or.inl (hab1.symm ▸ hbc)
      · exact Or.inr ⟨hab1.trans hbc1, hab2.trans hbc2⟩

/-- The alphabetical sort key (`gen.py` HTML mode, and `gen_html.py`):
`item[0]`, the topic string. -/
def alphaLE (a b : String × List Repo) : Prop := a.1 ≤ b.1

instance : DecidableRel alphaLE := fun a b => by
  unfold alphaLE; infer_instance

/-- `sorted(topic_to_repos.items(), key=lambda item: (-len(item[1]), item[0]))`. -/
def sorted_topics (index : List (String × List Repo)) : List (String × List Repo) :=
  index.insertionSort rankLE

/-- `sorted(topic_to_repos.items(), key=lambda item: item[0])`. -/
def sorted_topics_alpha (index : List (String × List Repo)) : List (String × List Repo) :=
  index.insertionSort alphaLE

/-- The emission loop's threshold: `if len(repos) <= 1: continue` keeps
exactly the pairs whose repository list has more than one element. -/
def emitted (pairs : List (String × List Repo)) : List (String × List Repo) :=
  pairs.filter (fun p => !decide (p.2.length ≤ 1))

/-! ## Search query and URL (`gen.py` lines 167-174) -/

/-- `sorted(set(owner logins))`: distinct owner logins in ascending order. -/
def sortedUsers (repos : List Repo) : List String :=
  ((repos.map Repo.owner).dedup).insertionSort (· ≤ ·)

/-- `search_text` of `gen.py`: an exact repo-list query for a forked topic,
otherwise sorted `user:` tokens followed by the topic and fork qualifiers. -/
def search_text (forked_topics : List String) (topic : String)
    (repos : List Repo) : String :=
  if topic ∈ forked_topics then
    " ".intercalate (repos.map (fun r => "repo:" ++ fullName r))
  else
    " ".intercalate ((sortedUsers repos).map (fun u => "user:" ++ u))
      ++ " topic:" ++ topic ++ " fork:true"

/-- The uppercase hexadecimal digits of `'%{:02X}'` formatting. -/
def HEXDIGITS : List Char := "0123456789ABCDEF".data

/-- The `n`-th uppercase hexadecimal digit (only `n ≤ 15` ever arises). -/
def hexDigit (n : Nat) : Char := HEXDIGITS.getD n 'F'

/-- The UTF-8 bytes of a character, as `str.encode('utf-8')` produces them. -/
def utf8Bytes (c : Char) : List Nat :=
  let n := c.toNat
  if n < 128 then [n]
  else if n < 2048 then [192 + n / 64, 128 + n % 64]
  else if n < 65536 then [224 + n / 4096, 128 + n / 64 % 64, 128 + n % 64]
  else [240 + n / 262144, 128 + n / 4096 % 64, 128 + n / 64 % 64, 128 + n % 64]

/-- A percent-encoded byte: `%` followed by two uppercase hex digits. -/
def pctByte (b : Nat) : List Char := ['%', hexDigit (b / 16), hexDigit (b % 16)]

/-- The characters `urllib.parse.quote_plus` leaves untouched:
ASCII letters, digits, and `_.-~`. -/
def alwaysSafe (c : Char) : Bool :=
  c.isAlphanum || c == '_' || c == '.' || c == '-' || c == '~'

/-- The encoding of one character under `quote_plus`: kept if always-safe,
space to `+`, otherwise every UTF-8 byte percent-encoded. -/
def quoteChar (c : Char) : List Char :=
  if alwaysSafe c then [c]
  else if c = ' ' then ['+']
  else (utf8Bytes c).foldr (fun b acc => pctByte b ++ acc) []

/-- `urllib.parse.quote_plus`. -/
def quote_plus (s : String) : String :=
  String.mk (s.data.foldr (fun c acc => quoteChar c ++ acc) [])

/-- The search URL of `gen.py` line 173-174. -/
def search_url (forked_topics : List String) (topic : String)
    (repos : List Repo) : String :=
  "https://github.com/search?q=" ++ quote_plus (search_text forked_topics topic repos)
    ++ "&type=repositories"

/-! ## The `gen_html.py` variant (lines 101-133) -/

/-- `gen_html.py` Step 2's extra filter: keep only repositories whose raw
declared topic list is non-empty (`'topics' in repo and repo['topics']`). -/
def repos_with_topics (repos : List Repo) : List Repo :=
  repos.filter (fun r => !decide (r.topics = []))

/-- `gen_html.py` Step 3: group by the raw declared topics (no fork fallback
exists in this variant). -/
def html_topic_to_repos (repos : List Repo) : List (String × List Repo) :=
  (repos_with_topics repos).foldl
    (fun ix r => r.topics.foldl (fun ix2 t => addRepo ix2 t r) ix) []

/-- `gen_html.py` line 128: `set(owner logins)`.  CPython set iteration
order is unspecified; a dedup of the owner list models one enumeration of
the same distinct elements. -/
def html_users (repos : List Repo) : List String := (repos.map Repo.owner).dedup

/-- `gen_html.py` line 129: pre-encoded `user%3A<login>` tokens joined by `+`. -/
def org_user_search (users : List String) : String :=
  "+".intercalate (users.map (fun u => "user%3A" ++ u))

/-- `gen_html.py` line 130: the search URL, with the fork qualifier before
the topic qualifier and no `type=repositories` qualifier. -/
def html_search_url (topic : String) (repos : List Repo) : String :=
  "https://github.com/search?q=" ++ org_user_search (html_users repos)
    ++ "+fork%3Atrue+topic%3A" ++ topic

/-- Substring test used to state facts about emitted URLs: does `pat` occur
contiguously in `hay`? -/
def containsSub (hay pat : String) : Bool :=
  (List.range (hay.data.length + 1)).any
    (fun i => ((hay.data.drop i).take pat.data.length) == pat.data)

/-! ## Helper lemmas about the aggregation loop -/

theorem lookup_addRepo (ix : List (String × List Repo)) (t tp : String) (r : Repo) :
    lookupIx (addRepo ix tp r) t =
      if t = tp then lookupIx ix t ++ [r] else lookupIx ix t := by
  induction ix with
  | nil =>
    by_cases h : t = tp
    · subst h; simp [addRepo, lookupIx]
    · simp [addRepo, lookupIx, h, Ne.symm h]
  | cons p rest ih =>
    obtain ⟨k, v⟩ := p
    by_cases hk : k = tp
    · subst hk
      by_cases h : t = k
      · subst h; simp [addRepo, lookupIx]
      · simp [addRepo, lookupIx, h, Ne.symm h]
    · by_cases h : k = t
      · subst h
        simp [addRepo, lookupIx, hk, Ne.symm hk]
      · simp [addRepo, lookupIx, hk, h, ih]

theorem lookup_foldTopics (ts : List String) (ix : List (String × List Repo))
    (r : Repo) (t : String) :
    lookupIx (ts.foldl (fun ix2 tp => addRepo ix2 tp r) ix) t =
      lookupIx ix t ++ List.replicate (ts.count t) r := by
  induction ts generalizing ix with
  | nil => simp
  | cons tp ts ih =>
    rw [List.foldl_cons, ih, lookup_addRepo, List.count_cons]
    by_cases h : t = tp
    · simp [h, List.replicate_succ, List.append_assoc]
    · simp [h, Ne.symm h]

theorem agg_index_lookup (fetch : String → String → Option Repo) (username : String)
    (repos : List Repo) (acc : List (String × List Repo) × List String) (t : String) :
    lookupIx ((repos.foldl (aggStep fetch username) acc).1) t =
      lookupIx acc.1 t ++
        repos.flatMap
          (fun r => List.replicate (((get_effective_topics fetch username r).1).count t) r) := by
  induction repos generalizing acc with
  | nil => simp
  | cons r rest ih =>
    rw [List.foldl_cons, ih, List.flatMap_cons]
    show lookupIx (aggStep fetch username acc r).1 t ++ _ = _
    rw [aggStep, lookup_foldTopics, List.append_assoc]

theorem agg_forked (fetch : String → String → Option Repo) (username : String)
    (repos : List Repo) (acc : List (String × List Repo) × List String) :
    (repos.foldl (aggStep fetch username) acc).2 =
      acc.2 ++
        repos.flatMap
          (fun r =>
            if (get_effective_topics fetch username r).2 then
              (get_effective_topics fetch username r).1
            else []) := by
  induction repos generalizing acc with
  | nil => simp
  | cons r rest ih =>
    rw [List.foldl_cons, ih, List.flatMap_cons]
    show (aggStep fetch username acc r).2 ++ _ = _
    rw [aggStep]
    by_cases h : (get_effective_topics fetch username r).2
    · simp [h, List.append_assoc]
    · simp [h]

theorem flatMap_replicate_count_eq_filter (fetch : String → String → Option Repo)
    (username : String) (repos : List Repo) (t : String)
    (h : ∀ x ∈ repos, ((get_effective_topics fetch username x).1).Nodup) :
    repos.flatMap
        (fun r => List.replicate (((get_effective_topics fetch username r).1).count t) r) =
      repos.filter (fun r => decide (t ∈ (get_effective_topics fetch username r).1)) := by
  induction repos with
  | nil => simp
  | cons r rest ih =>
    rw [List.flatMap_cons, List.filter_cons,
      ih (fun x hx => h x (List.mem_cons_of_mem r hx))]
    by_cases hm : t ∈ (get_effective_topics fetch username r).1
    · have h1 : ((get_effective_topics fetch username r).1).count t = 1 := by
        have hle := List.nodup_iff_count_le_one.mp (h r (List.mem_cons_self r rest)) t
        have hpos := List.count_pos_iff.mpr hm
        omega
      simp [hm, h1]
    · have h0 : ((get_effective_topics fetch username r).1).count t = 0 :=
        List.count_eq_zero.mpr hm
      simp [hm, h0]

/-! ## Helper lemmas about the percent-encoder -/

theorem getD_mem_or (l : List Char) (n : Nat) (d : Char) :
    l.getD n d ∈ l ∨ l.getD n d = d := by
  induction l generalizing n with
  | nil => right; rfl
  | cons c cs ih =>
    cases n with
    | zero => left; simp
    | succ m =>
      rcases ih m with h | h
      · left
        rw [List.getD_cons_succ]
        exact List.mem_cons_of_mem c h
      · right
        rw [List.getD_cons_succ]
        exact h

theorem hexDigit_ne_space (n : Nat) : hexDigit n ≠ ' ' := by
  rcases getD_mem_or HEXDIGITS n 'F' with h | h
  · intro e
    rw [show HEXDIGITS.getD n 'F' = hexDigit n from rfl, e] at h
    revert h; decide
  · rw [hexDigit, h]; decide

theorem pctByte_no_space (b : Nat) : ' ' ∉ pctByte b := by
  intro h
  rw [pctByte] at h
  rcases List.mem_cons.mp h with h1 | h1
  · exact absurd h1 (by decide)
  rcases List.mem_cons.mp h1 with h2 | h2
  · exact hexDigit_ne_space (b / 16) h2.symm
  rcases List.mem_cons.mp h2 with h3 | h3
  · exact hexDigit_ne_space (b % 16) h3.symm
  · exact absurd h3 (List.not_mem_nil _)

theorem quoteChar_no_space (c : Char) : ' ' ∉ quoteChar c := by
  rw [quoteChar]
  by_cases hs : alwaysSafe c
  · rw [if_pos hs]
    intro h
    rw [List.mem_singleton] at h
    rw [← h] at hs
    revert hs; decide
  · rw [if_neg hs]
    by_cases he : c = ' '
    · rw [if_pos he]
      intro h
      rw [List.mem_singleton] at h
      exact absurd h (by decide)
    · rw [if_neg he]
      generalize utf8Bytes c = bs
      induction bs with
      | nil => intro h; cases h
      | cons b rest ih =>
        intro h
        rcases List.mem_append.mp h with h1 | h1
        · exact pctByte_no_space b h1
        · exact ih h1

theorem quote_plus_no_space (s : String) : ' ' ∉ (quote_plus s).data := by
  rw [quote_plus]
  show ' ' ∉ s.data.foldr (fun c acc => quoteChar c ++ acc) []
  induction s.data with
  | nil => intro h; cases h
  | cons c rest ih =>
    intro h
    rcases List.mem_append.mp h with h1 | h1
    · exact quoteChar_no_space c h1
    · exact ih h1

theorem mem_emitted_two_le (pairs : List (String × List Repo))
    (p : String × List Repo) (hp : p ∈ emitted pairs) : 2 ≤ p.2.length := by
  rw [emitted] at hp
  have h2 := (List.mem_filter.mp hp).2
  simp only [Bool.not_eq_true', decide_eq_false_iff_not, not_le] at h2
  omega

/-! ## The claims -/

/-- C1.  Effective-topic resolution: a non-empty declared topic list is
returned verbatim with `wasForkFallback = false`; an empty declared list on a
repository not owned by the user triggers the fetch of the user's repository
of the same name, whose topic list is returned with `wasForkFallback = true`
when it exists and is non-empty; in every other case (owner is the user,
user's repository absent, or user's repository without topics) the empty list
is returned with `wasForkFallback = false`. -/
theorem effective_topic_resolution (fetch : String → String → Option Repo)
    (username : String) (repo : Repo) :
    (repo.topics ≠ [] → get_effective_topics fetch username repo = (repo.topics, false))
    ∧ (repo.topics = [] → repo.owner = username →
        get_effective_topics fetch username repo = ([], false))
    ∧ (repo.topics = [] → repo.owner ≠ username → fetch username repo.name = none →
        get_effective_topics fetch username repo = ([], false))
    ∧ (∀ u, repo.topics = [] → repo.owner ≠ username → fetch username repo.name = some u →
        u.topics = [] → get_effective_topics fetch username repo = ([], false))
    ∧ (∀ u, repo.topics = [] → repo.owner ≠ username → fetch username repo.name = some u →
        u.topics ≠ [] → get_effective_topics fetch username repo = (u.topics, true)) := by
  refine ⟨?_, ?_, ?_, ?_, ?_⟩
  · intro h
    rw [get_effective_topics, if_neg (fun hc => h hc.1)]
  · intro h1 h2
    rw [get_effective_topics, if_neg (fun hc => hc.2 h2), h1]
  · intro h1 h2 h3
    rw [get_effective_topics, if_pos ⟨h1, h2⟩]
    simp only [h3, h1]
  · intro u h1 h2 h3 h4
    rw [get_effective_topics, if_pos ⟨h1, h2⟩]
    simp only [h3, h4, h1, if_pos]
  · intro u h1 h2 h3 h4
    rw [get_effective_topics, if_pos ⟨h1, h2⟩]
    simp only [h3]
    rw [if_neg h4]

/-- C3.  Minimum-count threshold: in every rendered output — `gen.py`
markdown (by count), `gen.py` HTML mode (alphabetical) and `gen_html.py`
(alphabetical) — every emitted topic groups at least 2 repositories, so a
topic attached to exactly one repository never appears.  The last conjunct
shows the threshold on a concrete run: topic `go` with one repository is
dropped, topic `cli` with two is kept. -/
theorem minimum_count_threshold (fetch : String → String → Option Repo)
    (username : String) (repos : List Repo) :
    (∀ p ∈ emitted (sorted_topics (aggregate fetch username repos).1), 2 ≤ p.2.length)
    ∧ (∀ p ∈ emitted (sorted_topics_alpha (aggregate fetch username repos).1), 2 ≤ p.2.length)
    ∧ (∀ p ∈ emitted (sorted_topics_alpha (html_topic_to_repos repos)), 2 ≤ p.2.length)
    ∧ emitted (sorted_topics (aggregate (fun _ _ => none) "namin"
        [⟨"acme", "bar", ["cli", "go"]⟩, ⟨"other", "baz", ["cli"]⟩]).1)
      = [("cli", [⟨"acme", "bar", ["cli", "go"]⟩, ⟨"other", "baz", ["cli"]⟩])] :=
  ⟨fun p hp => mem_emitted_two_le _ p hp,
   fun p hp => mem_emitted_two_le _ p hp,
   fun p hp => mem_emitted_two_le _ p hp,
   by decide⟩

/-- C5.  `by_count` ordering: the markdown-mode sort puts pairs in order of
decreasing repository count, and among pairs of equal count the
alphabetically smaller topic first; the property survives the threshold
filter. -/
theorem by_count_ordering (index : List (String × List Repo)) :
    List.Pairwise
      (fun a b => b.2.length ≤ a.2.length ∧ (a.2.length = b.2.length → a.1 ≤ b.1))
      (sorted_topics index)
    ∧ List.Pairwise
      (fun a b => b.2.length ≤ a.2.length ∧ (a.2.length = b.2.length → a.1 ≤ b.1))
      (emitted (sorted_topics index)) := by
  have hs : List.Pairwise rankLE (sorted_topics index) :=
    List.sorted_insertionSort rankLE index
  have hp :
      List.Pairwise
        (fun a b => b.2.length ≤ a.2.length ∧ (a.2.length = b.2.length → a.1 ≤ b.1))
        (sorted_topics index) := by
    refine hs.imp ?_
    intro a b hab
    rcases hab with hab | ⟨hab1, hab2⟩
    · refine ⟨Nat.le_of_lt hab, fun heq => ?_⟩
      rw [heq] at hab
      exact absurd hab (Nat.lt_irrefl _)
    · exact ⟨hab1.ge, fun _ => hab2⟩
  exact ⟨hp, List.Pairwise.sublist (List.filter_sublist _) hp⟩

/-- C8.  Title prettification: a topic that is a key of `TOPIC_TITLES` maps
to its table entry; any other topic gets hyphen-aware capitalization; in
particular `multi-stage-programming ↦ Staging` (table hit) and
`graph-algorithms ↦ Graph-Algorithms` (default rule). -/
theorem title_prettification (topic : String) :
    (∀ v, TOPIC_TITLES.lookup topic = some v → pretty_title topic = v)
    ∧ (TOPIC_TITLES.lookup topic = none → pretty_title topic = capitalize topic)
    ∧ pretty_title "multi-stage-programming" = "Staging"
    ∧ pretty_title "graph-algorithms" = "Graph-Algorithms" := by
  refine ⟨?_, ?_, by decide, by decide⟩
  · intro v h
    rw [pretty_title, h]
    rfl
  · intro h
    rw [pretty_title, h]
    rfl

/-- C9.  Contribution check: `has_contributed_to_repo` is true exactly when
the response status is 200 and some contributor login equals the username by
case-sensitive string equality; every non-success status yields `false`
(the function is total — a failed check excludes the repository, it never
aborts the batch).  The concrete conjuncts show case-sensitivity and the
fail-open behaviour. -/
theorem contribution_check (username : String) (resp : ContribResponse) :
    (has_contributed_to_repo username resp = true
      ↔ resp.status = 200 ∧ username ∈ resp.contributors)
    ∧ (resp.status ≠ 200 → has_contributed_to_repo username resp = false)
    ∧ has_contributed_to_repo "namin" ⟨200, ["Namin", "other"]⟩ = false
    ∧ has_contributed_to_repo "namin" ⟨404, ["namin"]⟩ = false
    ∧ has_contributed_to_repo "namin" ⟨200, ["x", "namin"]⟩ = true := by
  refine ⟨?_, ?_, by decide, by decide, by decide⟩
  · rw [has_contributed_to_repo]
    by_cases h : resp.status = 200
    · simp [h]
    · simp [h]
  · intro h
    rw [has_contributed_to_repo, if_neg h]

/-- C10.  Case-sensitivity asymmetry: the programming-language CSS class is
assigned iff the lowercased topic is in the language set, while the title
table is consulted with the topic verbatim; a topic that is not an exact key
falls back to capitalization even when its lowercase form is a key —
`pretty_title "LLM" = "Llm"` although `llm` maps to `LLMs`. -/
theorem case_sensitivity_asymmetry (topic : String) :
    (topic_class topic = "programming-language" ↔ lower topic ∈ PROGRAMMING_LANGUAGES)
    ∧ (TOPIC_TITLES.lookup topic = none → pretty_title topic = capitalize topic)
    ∧ pretty_title "LLM" = "Llm"
    ∧ TOPIC_TITLES.lookup "llm" = some "LLMs"
    ∧ lower "LLM" = "llm"
    ∧ topic_class "Rust" = "programming-language" := by
  refine ⟨?_, ?_, by decide, by decide, by decide, by decide⟩
  · rw [topic_class]
    by_cases h : lower topic ∈ PROGRAMMING_LANGUAGES
    · simp [h]
    · simp [h]
  · intro h
    rw [pretty_title, h]
    rfl

/-- C2, counterexample.  `gen_html.py` puts the fork qualifier *before* the
topic qualifier: for topic `cli` on two repositories of owner `acme` it emits
the encoded query `user%3Aacme+fork%3Atrue+topic%3Acli`, while the claim's
query `user:acme topic:cli fork:true`, identically encoded, reads
`user%3Aacme+topic%3Acli+fork%3Atrue`. -/
theorem search_query_construction_cex :
    html_search_url "cli" [⟨"acme", "bar", ["cli"]⟩, ⟨"acme", "baz", ["cli"]⟩]
      = "https://github.com/search?q=user%3Aacme+fork%3Atrue+topic%3Acli"
    ∧ quote_plus ("user:acme" ++ " topic:cli fork:true")
      = "user%3Aacme+topic%3Acli+fork%3Atrue"
    ∧ html_search_url "cli" [⟨"acme", "bar", ["cli"]⟩, ⟨"acme", "baz", ["cli"]⟩]
      ≠ "https://github.com/search?q="
          ++ quote_plus ("user:acme" ++ " topic:cli fork:true") := by
  refine ⟨by decide, by decide, by decide⟩

/-- C2, amended.  In `gen.py` (both modes) the claim holds: a forked topic's
query is the space-joined `repo:<owner>/<name>` tokens in list order, and any
other topic's query is the `user:<login>` tokens over the distinct owner
logins sorted ascending followed by ` topic:<topic> fork:true`.  In
`gen_html.py` (which has no forked branch) the `user%3A<login>` tokens range
over the distinct owner logins in an unspecified set-iteration order and are
followed by `+fork%3Atrue+topic%3A<topic>` — the fork qualifier first. -/
theorem search_query_construction_amended (forked_topics : List String)
    (topic : String) (repos : List Repo) :
    (topic ∈ forked_topics →
      search_text forked_topics topic repos
        = " ".intercalate (repos.map (fun r => "repo:" ++ fullName r)))
    ∧ (topic ∉ forked_topics →
      search_text forked_topics topic repos
        = " ".intercalate ((sortedUsers repos).map (fun u => "user:" ++ u))
            ++ " topic:" ++ topic ++ " fork:true")
    ∧ List.Pairwise (· ≤ ·) (sortedUsers repos)
    ∧ (sortedUsers repos).Nodup
    ∧ (∀ u, u ∈ sortedUsers repos ↔ u ∈ repos.map Repo.owner)
    ∧ html_search_url topic repos
        = "https://github.com/search?q=" ++ org_user_search (html_users repos)
            ++ "+fork%3Atrue+topic%3A" ++ topic
    ∧ (html_users repos).Nodup
    ∧ (∀ u, u ∈ html_users repos ↔ u ∈ repos.map Repo.owner) := by
  refine ⟨?_, ?_, ?_, ?_, ?_, rfl, List.nodup_dedup _, fun u => List.mem_dedup⟩
  · intro h
    rw [search_text, if_pos h]
  · intro h
    rw [search_text, if_neg h]
  · exact List.sorted_insertionSort _ _
  · exact ((List.perm_insertionSort _ _).nodup_iff).mpr (List.nodup_dedup _)
  · intro u
    rw [sortedUsers, List.mem_insertionSort, List.mem_dedup]

/-- C6, counterexample.  The URL `gen_html.py` emits for topic `cli` over two
`acme` repositories carries no `type=repositories` qualifier at all, while
`gen.py`'s URL for the same data does. -/
theorem url_construction_cex :
    html_search_url "cli" [⟨"acme", "bar", ["cli"]⟩, ⟨"acme", "baz", ["cli"]⟩]
      = "https://github.com/search?q=user%3Aacme+fork%3Atrue+topic%3Acli"
    ∧ containsSub
        (html_search_url "cli" [⟨"acme", "bar", ["cli"]⟩, ⟨"acme", "baz", ["cli"]⟩])
        "type=repositories" = false
    ∧ containsSub
        (search_url [] "cli" [⟨"acme", "bar", ["cli"]⟩, ⟨"acme", "baz", ["cli"]⟩])
        "type=repositories" = true := by
  refine ⟨by decide, by decide, by decide⟩

/-- C6, amended.  `gen.py` percent-encodes the query with `quote_plus`
(space becomes `+`, and no space survives encoding) and embeds it in the
fixed template with a `type=repositories` qualifier; `gen_html.py` instead
splices pre-encoded tokens into a template that carries no
`type=repositories` qualifier. -/
theorem url_construction_amended (forked_topics : List String) (topic : String)
    (repos : List Repo) :
    search_url forked_topics topic repos
      = "https://github.com/search?q="
          ++ quote_plus (search_text forked_topics topic repos) ++ "&type=repositories"
    ∧ (∀ s : String, ' ' ∉ (quote_plus s).data)
    ∧ quote_plus " " = "+"
    ∧ html_search_url topic repos
        = "https://github.com/search?q=" ++ org_user_search (html_users repos)
            ++ "+fork%3Atrue+topic%3A" ++ topic :=
  ⟨rfl, quote_plus_no_space, by decide, rfl⟩

/-- C4.  Topic-global forked flag: when any repository contributed topic `t`
through the fork-fallback path, `t` is in the forked-topic set, the query for
`t` takes the repo-list form over the whole of `TopicIndex[t]`, and every
repository whose effective topics include `t` — also one that declared `t`
directly — is in that list. -/
theorem forked_topic_flag (fetch : String → String → Option Repo) (username : String)
    (repos : List Repo) (r : Repo) (t : String)
    (hr : r ∈ repos)
    (hfb : (get_effective_topics fetch username r).2 = true)
    (ht : t ∈ (get_effective_topics fetch username r).1) :
    t ∈ (aggregate fetch username repos).2
    ∧ search_text (aggregate fetch username repos).2 t
        (lookupIx (aggregate fetch username repos).1 t)
      = " ".intercalate
          ((lookupIx (aggregate fetch username repos).1 t).map
            (fun x => "repo:" ++ fullName x))
    ∧ ∀ r2 ∈ repos, t ∈ (get_effective_topics fetch username r2).1 →
        r2 ∈ lookupIx (aggregate fetch username repos).1 t := by
  have hf : t ∈ (aggregate fetch username repos).2 := by
    rw [aggregate, agg_forked]
    refine List.mem_append.mpr (Or.inr (List.mem_flatMap.mpr ⟨r, hr, ?_⟩))
    rw [if_pos hfb]
    exact ht
  refine ⟨hf, by rw [search_text, if_pos hf], ?_⟩
  intro r2 h2 ht2
  rw [aggregate, agg_index_lookup]
  refine List.mem_append.mpr (Or.inr (List.mem_flatMap.mpr ⟨r2, h2, ?_⟩))
  refine List.mem_replicate.mpr ⟨?_, rfl⟩
  have := List.count_pos_iff.mpr ht2
  omega

/-- C7.  TopicIndex membership: provided the input repositories have
pairwise distinct identities and each effective topic list is duplicate-free
(both true of GitHub data), every repository appears at most once under a
topic — the full names listed under `t` are distinct — and a repository is
listed under `t` only when `t` is among its *effective* topics. -/
theorem topic_index_membership (fetch : String → String → Option Repo)
    (username : String) (repos : List Repo) (t : String)
    (hids : (repos.map fullName).Nodup)
    (hnd : ∀ x ∈ repos, ((get_effective_topics fetch username x).1).Nodup) :
    ((lookupIx (aggregate fetch username repos).1 t).map fullName).Nodup
    ∧ ∀ x ∈ lookupIx (aggregate fetch username repos).1 t,
        t ∈ (get_effective_topics fetch username x).1 := by
  have hchar : lookupIx (aggregate fetch username repos).1 t
      = repos.filter (fun r => decide (t ∈ (get_effective_topics fetch username r).1)) := by
    rw [aggregate, agg_index_lookup,
      flatMap_replicate_count_eq_filter fetch username repos t hnd]
    rfl
  constructor
  · rw [hchar]
    exact List.Nodup.sublist (List.Sublist.map _ (List.filter_sublist _)) hids
  · intro x hx
    rw [hchar] at hx
    exact of_decide_eq_true (List.mem_filter.mp hx).2

/-- A concrete fork-fallback fetch: the user `namin` has a repository `foo`
tagged `rust, cli`. -/
def fetchW : String → String → Option Repo :=
  fun user name =>
    if user = "namin" ∧ name = "foo" then some ⟨"namin", "foo", ["rust", "cli"]⟩
    else none

/-- Concrete input: `acme/foo` is untagged (its topics come from the
fallback), `bob/lib` declares `rust` directly. -/
def reposW : List Repo := [⟨"acme", "foo", []⟩, ⟨"bob", "lib", ["rust"]⟩]

/-- C4, witness: on the concrete run, `rust` is forked, its query takes the
repo-list form, and both the fallback repository and the directly-tagged one
are covered. -/
theorem forked_topic_flag_witness :
    "rust" ∈ (aggregate fetchW "namin" reposW).2
    ∧ search_text (aggregate fetchW "namin" reposW).2 "rust"
        (lookupIx (aggregate fetchW "namin" reposW).1 "rust")
      = " ".intercalate
          ((lookupIx (aggregate fetchW "namin" reposW).1 "rust").map
            (fun x => "repo:" ++ fullName x))
    ∧ ∀ r2 ∈ reposW, "rust" ∈ (get_effective_topics fetchW "namin" r2).1 →
        r2 ∈ lookupIx (aggregate fetchW "namin" reposW).1 "rust" :=
  forked_topic_flag fetchW "namin" reposW ⟨"acme", "foo", []⟩ "rust"
    (by decide) (by decide) (by decide)

/-- C7, witness: the membership invariant instantiated on the concrete run. -/
theorem topic_index_membership_witness :
    ((lookupIx (aggregate fetchW "namin" reposW).1 "rust").map fullName).Nodup
    ∧ ∀ x ∈ lookupIx (aggregate fetchW "namin" reposW).1 "rust",
        "rust" ∈ (get_effective_topics fetchW "namin" x).1 :=
  topic_index_membership fetchW "namin" reposW "rust" (by decide) (by decide)

end StarTopics
